import Mathlib

/-!
Verification of the pyanova-nano command/response protocol engine.

The definitions below are shallow embeddings of the Python source:
  - `encode_command`, `convert_buffer` embed `pyanova_nano/commands.py`
  - the client models embed the relevant methods of `pyanova_nano/client.py`
Bytes are modelled as `Nat`, byte strings as `List Nat`, Python `None`
placeholders as `Option.none`, and Python exceptions as `Except`.
-/

namespace PyAnova

/-! ## Frame codec: `encode_command` (commands.py lines 10-35)

The imperative Python code keeps a list `result`, an index `last_value` of the
currently open group's length placeholder, and a running counter
`current_index`.  We embed the state and the loop body directly. -/

structure EncState where
  result : List Nat
  last_value : Nat
  current_index : Nat
deriving Repr, DecidableEq

/-- The helper `reset_index` of `encode_command`: write the counter into the placeholder
slot, remember the next slot, append a fresh placeholder 0 when `is_end`. -/
def reset_index (s : EncState) (is_end : Bool) : EncState :=
  let result := s.result.set s.last_value s.current_index
  let last_value := result.length
  let result := if is_end then result ++ [0] else result
  { result := result, last_value := last_value, current_index := 1 }

/-- One iteration of the `for u in range(len(buffer))` loop body. -/
def encodeStep (s : EncState) (b : Nat) : EncState :=
  if b = 0 then
    reset_index s true
  else
    let s' : EncState :=
      { s with result := s.result ++ [b], current_index := s.current_index + 1 }
    if s'.current_index = 255 then reset_index s' true else s'

/-- The function `encode_command(buffer, i)` of commands.py: COBS-style byte stuffing. -/
def encode_command (buffer : List Nat) (i : Bool) : List Nat :=
  let s0 : EncState := { result := [0], last_value := 0, current_index := 1 }
  let s1 := buffer.foldl encodeStep s0
  let s2 := reset_index s1 false
  if i then s2.result ++ [0] else s2.result

/-! ## Frame codec: `convert_buffer` (commands.py lines 52-67)

The Python `while i < len(data) - 1` loop advances `i` by at least one per
iteration, so `raw.length` iterations always suffice; the `fuel` argument
makes the recursion structural (and hence kernel-evaluable). -/

/-- The body of `convert_buffer`'s while loop.  Reading `data[i]` inside the
inner `for` raises `IndexError` past the end, which the code turns into a
`None` entry; the trailing literal 0 is appended when `block_length < 255`
and input remains. -/
def convertLoopF (data : List Nat) : Nat → Nat → List (Option Nat)
  | _, 0 => []
  | i, fuel + 1 =>
    if i < data.length - 1 then
      let L := data.getD i 0
      let body := (List.range (L - 1)).map
        (fun k => if i + 1 + k < data.length then some (data.getD (i + 1 + k) 0) else none)
      let i2 := i + 1 + (L - 1)
      let sep := if L < 255 ∧ i2 < data.length then [some 0] else []
      body ++ (sep ++ convertLoopF data i2 fuel)
    else []

/-- The function `convert_buffer(raw_data)` of commands.py: drop the final byte
(`raw_data[:-1]`), run the unstuffing loop, drop the 2-entry header
(`results[2:]`). -/
def convert_buffer (raw : List Nat) : List (Option Nat) :=
  (convertLoopF raw.dropLast 0 raw.length).drop 2

/-! ## Group decomposition of the encoder

`encode_command` splits its input into groups: maximal runs of non-zero bytes,
closed early when the group counter reaches 255 (254 data bytes), and closed by
every zero byte of the input.  The encoded body is each group's length byte
(`group length + 1`) followed by the group's bytes. -/

/-- The encoder's group decomposition of a payload, starting from a partially
filled current group `acc`. -/
def goGroups : List Nat → List Nat → List (List Nat)
  | acc, [] => [acc]
  | acc, b :: rest =>
    if b = 0 then acc :: goGroups [] rest
    else if acc.length = 253 then (acc ++ [b]) :: goGroups [] rest
    else goGroups (acc ++ [b]) rest

/-- Render a list of groups as the encoded frame body. -/
def flatBlocks : List (List Nat) → List Nat
  | [] => []
  | g :: gs => (g.length + 1) :: (g ++ flatBlocks gs)

/-! ## Decoding an encoded frame body -/

/-- The decoded content of a list of groups: each group's bytes, with a
reconstructed literal 0 after every group that is shorter than 254 bytes and
is not the last group. -/
def joinGroups : List (List Nat) → List (Option Nat)
  | [] => []
  | g :: gs =>
    g.map some ++
      ((if gs = [] then [] else if g.length < 254 then [some 0] else []) ++ joinGroups gs)

/-! ## The specification's description of `decode`

`specDecodeRun` renders the decode algorithm exactly as the specification
words it: walk the remainder; read one length byte `L`; copy the next `L-1`
bytes (each copy past the available input becomes a placeholder); if `L < 255`
and input remains, append a literal 0; repeat **until the input is
exhausted**.  `amendedDecodeRun` is the same walk except that, as in the code,
the loop stops as soon as fewer than two bytes of the remainder are unread. -/

/-- The decode loop as the spec words it, over the remaining byte list,
repeating until the input is exhausted. -/
def specDecodeRun : Nat → List Nat → List (Option Nat)
  | 0, _ => []
  | fuel + 1, r =>
    if r = [] then []
    else
      let L := r.headD 0
      let avail := r.tail
      let body := (avail.take (L - 1)).map some
        ++ List.replicate ((L - 1) - avail.length) none
      let r2 := avail.drop (L - 1)
      let sep := if L < 255 ∧ r2 ≠ [] then [some 0] else []
      body ++ (sep ++ specDecodeRun fuel r2)

/-- Decoding as claimed: drop the final byte, loop until the input is
exhausted, drop the 2-entry header. -/
def convert_buffer_claimed (raw : List Nat) : List (Option Nat) :=
  (specDecodeRun raw.length raw.dropLast).drop 2

/-- The amended description of the decode loop: stop once fewer than two
bytes of the remainder are unread (a single trailing byte is never consumed
as a length byte). -/
def amendedDecodeRun : Nat → List Nat → List (Option Nat)
  | 0, _ => []
  | fuel + 1, r =>
    if 2 ≤ r.length then
      let L := r.headD 0
      let avail := r.tail
      let body := (avail.take (L - 1)).map some
        ++ List.replicate ((L - 1) - avail.length) none
      let r2 := avail.drop (L - 1)
      let sep := if L < 255 ∧ r2 ≠ [] then [some 0] else []
      body ++ (sep ++ amendedDecodeRun fuel r2)
    else []

/-- Decoding as amended: drop the final byte, loop while at least two
bytes remain, drop the 2-entry header. -/
def convert_buffer_amended (raw : List Nat) : List (Option Nat) :=
  (amendedDecodeRun raw.length raw.dropLast).drop 2

/-! ## Client models (client.py, types.py)

The protobuf schema module `pyanova_nano/proto/messages_pb2` is not part of
the sources; the enumerations and message shapes it provides are modelled
from the specification (§6: "a closed enumeration of six unit tags", "a
sensor-value-list type (ordered entries of {integer value, unit tag})"). -/

/-- Modelled from the spec: the closed enumeration of unit tags of the
serialization collaborator (`UnitType` in the missing
`proto/messages_pb2`): six temperature variants (Celsius or Fahrenheit at
x1, x10, x100) plus the BOOLEAN and MOTOR_SPEED tags appearing in sensor
responses. -/
inductive UnitType where
  | DEGREES_C
  | DEGREES_POINT_1C
  | DEGREES_POINT_01C
  | DEGREES_F
  | DEGREES_POINT_1F
  | DEGREES_POINT_01F
  | BOOLEAN
  | MOTOR_SPEED
deriving DecidableEq, Repr

/-- Modelled from the spec: one entry of the sensor-value-list schema — an
integer value together with a unit tag. -/
structure SensorValue where
  value : Int
  units : UnitType
deriving DecidableEq, Repr

/-- The method `PyAnova._get_unit_and_factor` (client.py lines 437-453); the
`ValueError` raised for an unrecognized tag is the `Except.error` case. -/
def get_unit_and_factor (unit : UnitType) : Except String (String × Int) :=
  if unit = UnitType.DEGREES_C then Except.ok ("C", 1)
  else if unit = UnitType.DEGREES_POINT_1C then Except.ok ("C", 10)
  else if unit = UnitType.DEGREES_POINT_01C then Except.ok ("C", 100)
  else if unit = UnitType.DEGREES_F then Except.ok ("F", 1)
  else if unit = UnitType.DEGREES_POINT_1F then Except.ok ("F", 10)
  else if unit = UnitType.DEGREES_POINT_01F then Except.ok ("F", 100)
  else Except.error "Unknown unit type"

/-- The `SensorValues` dataclass (types.py lines 28-42); Python's float
division of protocol integers is idealized over the rationals. -/
structure SensorValues where
  water_temp : ℚ
  water_temp_units : String
  heater_temp : ℚ
  heater_temp_units : String
  triac_temp : ℚ
  triac_temp_units : String
  internal_temp : ℚ
  internal_temp_units : String
  water_low : Bool
  water_leak : Bool
  motor_speed : Int
deriving DecidableEq, Repr

/-- Python's `next(values)` over the decoded list: yields the head or raises
`StopIteration`. -/
def nextVal (vals : List SensorValue) : Except String (SensorValue × List SensorValue) :=
  match vals with
  | [] => Except.error "StopIteration"
  | v :: rest => Except.ok (v, rest)

/-- The method `PyAnova.get_sensor_values` (client.py lines 455-502) applied to the
decoded sensor value list, with the same sequence of `next` calls and unit
lookups as the Python code. -/
def get_sensor_values (vals : List SensorValue) : Except String SensorValues := do
  let (water_temp, vals) ← nextVal vals
  let (water_temp_units, water_temp_factor) ← get_unit_and_factor water_temp.units
  let (heater_temp, vals) ← nextVal vals
  let (heater_temp_units, heater_temp_factor) ← get_unit_and_factor heater_temp.units
  let (triac_temp, vals) ← nextVal vals
  let (triac_temp_units, triac_temp_factor) ← get_unit_and_factor triac_temp.units
  let (_unused_temp, vals) ← nextVal vals
  let (internal_temp, vals) ← nextVal vals
  let (internal_temp_units, internal_temp_factor) ← get_unit_and_factor internal_temp.units
  let (water_low, vals) ← nextVal vals
  let (water_leak, vals) ← nextVal vals
  let (motor_speed, _) ← nextVal vals
  Except.ok
    { water_temp := (water_temp.value : ℚ) / (water_temp_factor : ℚ),
      water_temp_units := water_temp_units,
      heater_temp := (heater_temp.value : ℚ) / (heater_temp_factor : ℚ),
      heater_temp_units := heater_temp_units,
      triac_temp := (triac_temp.value : ℚ) / (triac_temp_factor : ℚ),
      triac_temp_units := triac_temp_units,
      internal_temp := (internal_temp.value : ℚ) / (internal_temp_factor : ℚ),
      internal_temp_units := internal_temp_units,
      water_low := decide (water_low.value ≠ 0),
      water_leak := decide (water_leak.value ≠ 0),
      motor_speed := motor_speed.value }

/-- The enum `ReadCommands` (types.py lines 12-19). -/
inductive ReadCommands where
  | Start
  | Stop
  | GetSensorValues
  | ReadTargetTemp
  | ReadUnit
  | ReadTimer
  | GetFirmwareInfo
deriving DecidableEq, Repr

/-- Python attribute lookup on the `ReadCommands` enum class:
`ReadCommands.<member>` resolves only for the seven declared member names
and raises `AttributeError` for any other name. -/
def readCommandsAttr (member : String) : Option ReadCommands :=
  if member = "Start" then some ReadCommands.Start
  else if member = "Stop" then some ReadCommands.Stop
  else if member = "GetSensorValues" then some ReadCommands.GetSensorValues
  else if member = "ReadTargetTemp" then some ReadCommands.ReadTargetTemp
  else if member = "ReadUnit" then some ReadCommands.ReadUnit
  else if member = "ReadTimer" then some ReadCommands.ReadTimer
  else if member = "GetFirmwareInfo" then some ReadCommands.GetFirmwareInfo
  else none

/-- The method `PyAnova.get_status` (client.py lines 504-508): the method first
evaluates `ReadCommands.Status` (an attribute lookup on the enum) to build
the read command, then derives the status string from the cached
`_last_sensor_values.motor_speed`. -/
def get_status (lastMotorSpeed : Int) : Except String String :=
  match readCommandsAttr "Status" with
  | none => Except.error "AttributeError: Status"
  | some _cmd => Except.ok (if lastMotorSpeed = 0 then "stopped" else "running")

/-- Python's `str.lower()`: lower-case every character. -/
def strLower (s : String) : String := ⟨s.data.map Char.toLower⟩

/-- The method `PyAnova.set_unit` (client.py lines 549-555): the unit value written to
the device is DEGREES_C when the lowercased argument equals "c" and
DEGREES_F in every other case. -/
def set_unit (unit : String) : UnitType :=
  if strLower unit = "c" then UnitType.DEGREES_C else UnitType.DEGREES_F

/-- The completion check of `on_data_received` (client.py lines 309-329):
the accumulated notification bytes are treated as a complete response iff
the decoded buffer contains no `None` placeholder. -/
def response_complete (result : List Nat) : Bool :=
  decide (¬ (none ∈ convert_buffer result))

/-! ## Command dispatcher lock discipline (client.py lines 350-373) -/

/-- The outcome of `await get_data()` inside `send_command`'s first `try`:
it may return normally, raise an `Exception`-derived error (e.g. a transport
`BleakError` from `write_gatt_char`), or be cancelled at one of its `await`
suspension points — `asyncio.CancelledError` derives from `BaseException`,
not from `Exception`, so the `except Exception` clause does not catch it. -/
inductive GetDataOutcome where
  | ok
  | raisesException
  | cancelled
deriving DecidableEq, Repr

/-- The error outcomes of `send_command`: an `Exception`-derived error from
`get_data` (write failure), an uncaught `asyncio.CancelledError`,
`TimeoutError` from the expired 3-second deadline, and `DecodeError` from
`handler.FromString`. -/
inductive SendErr where
  | writeError
  | cancelledError
  | commandTimeout
  | decodeError
deriving DecidableEq, Repr

/-- The constant `PyAnova._RX_DATA_TIMEOUT_SEC` (client.py line 60). -/
def RX_DATA_TIMEOUT_SEC : Nat := 3

/-- Releasing `self._command_lock`. -/
def lockRelease (_ : Bool) : Bool := false

/-- The method `PyAnova.send_command` (client.py lines 350-373) reduced to its
lock discipline: the returned `Bool` is whether the command lock is still held
on exit.  The arguments select the branch the Python code takes: the outcome
of `await get_data()`, whether the command has a response handler, whether
the response deadline expires, and whether `handler.FromString` raises.  The
first `try` is followed by `except Exception: release; raise`, which catches
the `raisesException` outcome but NOT the `cancelled` one
(`asyncio.CancelledError` is `BaseException`-derived), so on cancellation the
error propagates with the lock still held; the second `try` ends in
`finally: release`, which releases on every outcome of `await data`. -/
def send_command (getData : GetDataOutcome) (hasHandler timesOut decodeFails : Bool) :
    Except SendErr (Option Nat) × Bool :=
  let lock := true
  match getData with
  | GetDataOutcome.raisesException => (Except.error SendErr.writeError, lockRelease lock)
  | GetDataOutcome.cancelled => (Except.error SendErr.cancelledError, lock)
  | GetDataOutcome.ok =>
    if hasHandler = false then
      (Except.ok none, lockRelease lock)
    else
      let awaitRes : Except SendErr Unit :=
        if timesOut then Except.error SendErr.commandTimeout else Except.ok ()
      let lock := lockRelease lock
      match awaitRes with
      | Except.error e => (Except.error e, lock)
      | Except.ok () =>
        if decodeFails then (Except.error SendErr.decodeError, lock)
        else (Except.ok (some 0), lock)

/-- The method `PyAnova._fire_callbacks` (client.py lines 390-397): run every callback
in order, catching and logging each exception.  A callback is modelled as a
state transformer that may also raise (`some e`); the function returns the
final state and the log of caught exceptions. -/
def fire_callbacks {σ : Type} (callbacks : List (σ → σ × Option String)) (s : σ) :
    σ × List String :=
  match callbacks with
  | [] => (s, [])
  | c :: rest =>
    let r := c s
    let res := fire_callbacks rest r.1
    (res.1, match r.2 with | some e => e :: res.2 | none => res.2)

/-- Detector for the round-trip side condition "no zero run exceeding 254
bytes": scan the payload keeping the length of the current run of zeros. -/
def zeroRunsOK : List Nat → Nat → Bool
  | [], _ => true
  | b :: rest, run =>
    if b = 0 then
      if 254 < run + 1 then false else zeroRunsOK rest (run + 1)
    else zeroRunsOK rest 0

/-- Holds (`true`) iff no run of consecutive zero bytes in the payload is longer
than 254. -/
def noLongZeroRun (p : List Nat) : Bool := zeroRunsOK p 0

/-! ## Proofs -/

theorem flatBlocks_append (xs ys : List (List Nat)) :
    flatBlocks (xs ++ ys) = flatBlocks xs ++ flatBlocks ys := by
  induction xs with
  | nil => simp [flatBlocks]
  | cons g gs ih => simp [flatBlocks, ih]

theorem reset_index_true_eq (gs : List (List Nat)) (acc : List Nat) :
    reset_index
        { result := flatBlocks gs ++ 0 :: acc,
          last_value := (flatBlocks gs).length,
          current_index := acc.length + 1 } true
      = { result := flatBlocks (gs ++ [acc]) ++ 0 :: ([] : List Nat),
          last_value := (flatBlocks (gs ++ [acc])).length,
          current_index := ([] : List Nat).length + 1 } := by
  simp [reset_index, List.set_append, List.set_cons_zero, flatBlocks_append, flatBlocks]

theorem reset_index_false_result (gs : List (List Nat)) (acc : List Nat) :
    (reset_index
        { result := flatBlocks gs ++ 0 :: acc,
          last_value := (flatBlocks gs).length,
          current_index := acc.length + 1 } false).result
      = flatBlocks (gs ++ [acc]) := by
  simp [reset_index, List.set_append, List.set_cons_zero, flatBlocks_append, flatBlocks]

theorem foldl_encodeStep_eq (rest : List Nat) :
    ∀ (gs : List (List Nat)) (acc : List Nat),
      (reset_index
          (List.foldl encodeStep
            { result := flatBlocks gs ++ 0 :: acc,
              last_value := (flatBlocks gs).length,
              current_index := acc.length + 1 } rest) false).result
        = flatBlocks gs ++ flatBlocks (goGroups acc rest) := by
  induction rest with
  | nil =>
    intro gs acc
    rw [List.foldl_nil, reset_index_false_result, goGroups, flatBlocks_append]
  | cons b rest ih =>
    intro gs acc
    rw [List.foldl_cons]
    by_cases hb : b = 0
    · subst hb
      have hstep :
          encodeStep
              { result := flatBlocks gs ++ 0 :: acc,
                last_value := (flatBlocks gs).length,
                current_index := acc.length + 1 } 0
            = { result := flatBlocks (gs ++ [acc]) ++ 0 :: ([] : List Nat),
                last_value := (flatBlocks (gs ++ [acc])).length,
                current_index := ([] : List Nat).length + 1 } := by
        rw [encodeStep, if_pos rfl, reset_index_true_eq]
      rw [hstep, ih (gs ++ [acc]) [], goGroups, if_pos rfl]
      simp [flatBlocks_append, flatBlocks]
    · have hcons :
          (flatBlocks gs ++ 0 :: acc) ++ [b] = flatBlocks gs ++ 0 :: (acc ++ [b]) := by
        simp
      by_cases hcap : acc.length = 253
      · have hstep :
            encodeStep
                { result := flatBlocks gs ++ 0 :: acc,
                  last_value := (flatBlocks gs).length,
                  current_index := acc.length + 1 } b
              = { result := flatBlocks (gs ++ [acc ++ [b]]) ++ 0 :: ([] : List Nat),
                  last_value := (flatBlocks (gs ++ [acc ++ [b]])).length,
                  current_index := ([] : List Nat).length + 1 } := by
          rw [encodeStep, if_neg hb]
          have h255 : acc.length + 1 + 1 = 255 := by omega
          simp only [h255, if_pos rfl, hcons]
          have hlen : acc.length + 1 = (acc ++ [b]).length := by simp
          rw [show (255 : Nat) = (acc ++ [b]).length + 1 by simp [hcap]]
          exact reset_index_true_eq gs (acc ++ [b])
        rw [hstep, ih (gs ++ [acc ++ [b]]) [], goGroups, if_neg hb, if_pos hcap]
        simp [flatBlocks_append, flatBlocks]
      · have hstep :
            encodeStep
                { result := flatBlocks gs ++ 0 :: acc,
                  last_value := (flatBlocks gs).length,
                  current_index := acc.length + 1 } b
              = { result := flatBlocks gs ++ 0 :: (acc ++ [b]),
                  last_value := (flatBlocks gs).length,
                  current_index := (acc ++ [b]).length + 1 } := by
          rw [encodeStep, if_neg hb]
          have h255 : ¬ (acc.length + 1 + 1 = 255) := by omega
          simp only [h255, if_neg, hcons, ite_false]
          simp
        rw [hstep, ih gs (acc ++ [b]), goGroups, if_neg hb, if_neg hcap]

theorem encode_command_eq (buffer : List Nat) (i : Bool) :
    encode_command buffer i
      = flatBlocks (goGroups [] buffer) ++ (if i then [0] else []) := by
  have h0 :
      ({ result := [0], last_value := 0, current_index := 1 } : EncState)
        = { result := flatBlocks [] ++ 0 :: ([] : List Nat),
            last_value := (flatBlocks []).length,
            current_index := ([] : List Nat).length + 1 } := by
    simp [flatBlocks]
  have key := foldl_encodeStep_eq buffer [] []
  simp only [flatBlocks, List.nil_append, List.length_nil, Nat.zero_add] at key
  rw [encode_command, h0]
  cases i <;> simp [key, flatBlocks]

theorem flatBlocks_eq_nil_iff (gs : List (List Nat)) : flatBlocks gs = [] ↔ gs = [] := by
  cases gs with
  | nil => simp [flatBlocks]
  | cons g gs => simp [flatBlocks]

theorem getD_append_self {α : Type} (l₁ l₂ : List α) (x d : α) :
    (l₁ ++ x :: l₂).getD l₁.length d = x := by
  rw [List.getD_eq_getElem?_getD, List.getElem?_append_right (le_refl _)]
  simp

theorem getD_append_add {α : Type} (l₁ l₂ : List α) (k : Nat) (d : α) :
    (l₁ ++ l₂).getD (l₁.length + k) d = l₂.getD k d := by
  rw [List.getD_eq_getElem?_getD, List.getElem?_append_right (by omega)]
  simp [List.getD_eq_getElem?_getD]

theorem range_map_some_getD {α : Type} (g : List α) (d : α) :
    (List.range g.length).map (fun k => some (g.getD k d)) = g.map some := by
  induction g with
  | nil => simp
  | cons a t ih =>
    simp only [List.getD_eq_getElem?_getD] at ih
    simp [List.range_succ_eq_map, List.map_map, Function.comp_def, ih]

theorem convertLoopF_zero (data : List Nat) (i : Nat) : convertLoopF data i 0 = [] := rfl

theorem convertLoopF_succ (data : List Nat) (i fuel : Nat) :
    convertLoopF data i (fuel + 1)
      = if i < data.length - 1 then
          ((List.range (data.getD i 0 - 1)).map
            (fun k => if i + 1 + k < data.length then some (data.getD (i + 1 + k) 0) else none))
          ++ ((if data.getD i 0 < 255 ∧ i + 1 + (data.getD i 0 - 1) < data.length
                then [some 0] else [])
            ++ convertLoopF data (i + 1 + (data.getD i 0 - 1)) fuel)
        else [] := rfl

/-- Running the unstuffing loop over a well-formed frame body recovers exactly
the groups' contents with the reconstructed zeros. -/
theorem convertLoopF_flatBlocks (gs : List (List Nat)) :
    ∀ (pre : List Nat) (fuel : Nat), (flatBlocks gs).length ≤ fuel →
      convertLoopF (pre ++ flatBlocks gs) pre.length fuel = joinGroups gs := by
  induction gs with
  | nil =>
    intro pre fuel _
    cases fuel with
    | zero => simp [convertLoopF_zero, joinGroups]
    | succ f =>
      have hguard : ¬ (pre.length < (pre ++ flatBlocks []).length - 1) := by
        simp only [flatBlocks, List.append_nil]
        omega
      rw [convertLoopF_succ, if_neg hguard, joinGroups]
  | cons g gs ih =>
    intro pre fuel hfuel
    have hflen : (flatBlocks (g :: gs)).length = g.length + (flatBlocks gs).length + 1 := by
      simp only [flatBlocks, List.length_cons, List.length_append]
    cases fuel with
    | zero =>
      exfalso
      rw [hflen] at hfuel
      omega
    | succ f =>
      have hdata : pre ++ flatBlocks (g :: gs) = pre ++ (g.length + 1) :: (g ++ flatBlocks gs) := by
        simp [flatBlocks]
      have hlen : (pre ++ (g.length + 1) :: (g ++ flatBlocks gs)).length
          = pre.length + 1 + g.length + (flatBlocks gs).length := by
        simp only [List.length_append, List.length_cons]
        omega
      rw [hdata]
      by_cases hz : g.length + (flatBlocks gs).length = 0
      · have hg : g = [] := List.length_eq_zero.mp (by omega)
        have hgs : gs = [] := (flatBlocks_eq_nil_iff gs).mp (List.length_eq_zero.mp (by omega))
        have hguard : ¬ (pre.length < (pre ++ (g.length + 1) :: (g ++ flatBlocks gs)).length - 1) := by
          rw [hlen]
          omega
        rw [convertLoopF_succ, if_neg hguard]
        simp [joinGroups, hg, hgs]
      · have hguard : pre.length < (pre ++ (g.length + 1) :: (g ++ flatBlocks gs)).length - 1 := by
          rw [hlen]
          omega
        have hL : (pre ++ (g.length + 1) :: (g ++ flatBlocks gs)).getD pre.length 0 = g.length + 1 :=
          getD_append_self _ _ _ _
        rw [convertLoopF_succ, if_pos hguard, hL]
        have h1 : g.length + 1 - 1 = g.length := by omega
        rw [h1]
        have hbody : (List.range g.length).map
              (fun k => if pre.length + 1 + k < (pre ++ (g.length + 1) :: (g ++ flatBlocks gs)).length
                then some ((pre ++ (g.length + 1) :: (g ++ flatBlocks gs)).getD (pre.length + 1 + k) 0)
                else none)
            = g.map some := by
          have h2 : ∀ k ∈ List.range g.length,
              (if pre.length + 1 + k < (pre ++ (g.length + 1) :: (g ++ flatBlocks gs)).length
                then some ((pre ++ (g.length + 1) :: (g ++ flatBlocks gs)).getD (pre.length + 1 + k) 0)
                else none)
              = some (g.getD k 0) := by
            intro k hk
            have hk' : k < g.length := List.mem_range.mp hk
            have hin : pre.length + 1 + k
                < (pre ++ (g.length + 1) :: (g ++ flatBlocks gs)).length := by
              rw [hlen]
              omega
            rw [if_pos hin]
            have hidx : pre ++ (g.length + 1) :: (g ++ flatBlocks gs)
                = (pre ++ [g.length + 1]) ++ (g ++ flatBlocks gs) := by
              simp
            have hplen : pre.length + 1 + k = (pre ++ [g.length + 1]).length + k := by
              simp
            rw [hidx, hplen, getD_append_add]
            congr 1
            rw [List.getD_eq_getElem?_getD, List.getD_eq_getElem?_getD,
              List.getElem?_append, if_pos hk']
          rw [List.map_congr_left h2, range_map_some_getD]
        rw [hbody]
        have hrest : pre ++ (g.length + 1) :: (g ++ flatBlocks gs)
            = (pre ++ (g.length + 1) :: g) ++ flatBlocks gs := by
          simp
        have hi2 : pre.length + 1 + g.length = (pre ++ (g.length + 1) :: g).length := by
          simp only [List.length_append, List.length_cons]
          omega
        have hih := ih (pre ++ (g.length + 1) :: g) f (by rw [hflen] at hfuel; omega)
        have hsep : (if g.length + 1 < 255 ∧ pre.length + 1 + g.length
              < (pre ++ (g.length + 1) :: (g ++ flatBlocks gs)).length
            then [some (0 : Nat)] else [])
            = (if gs = [] then [] else if g.length < 254 then [some 0] else []) := by
          by_cases hgs : gs = []
          · have hfb : flatBlocks gs = [] := by rw [hgs]; rfl
            rw [if_pos hgs, hlen, hfb]
            have : ¬ (g.length + 1 < 255 ∧ pre.length + 1 + g.length
                < pre.length + 1 + g.length + List.length ([] : List Nat)) := by
              simp
            rw [if_neg this]
          · have hfb : flatBlocks gs ≠ [] := fun h => hgs ((flatBlocks_eq_nil_iff gs).mp h)
            have hfblen : 0 < (flatBlocks gs).length := List.length_pos.mpr hfb
            rw [if_neg hgs, hlen]
            by_cases hlt : g.length < 254
            · rw [if_pos hlt, if_pos ⟨by omega, by omega⟩]
            · rw [if_neg hlt, if_neg (by omega)]
        rw [hsep]
        conv_lhs => rw [hrest, hi2, hih]
        rw [joinGroups]

theorem goGroups_ne_nil (rest : List Nat) : ∀ acc, goGroups acc rest ≠ [] := by
  induction rest with
  | nil =>
    intro acc
    simp [goGroups]
  | cons b rest ih =>
    intro acc
    rw [goGroups]
    by_cases hb : b = 0
    · simp [hb]
    · rw [if_neg hb]
      by_cases hc : acc.length = 253
      · simp [hc]
      · rw [if_neg hc]
        exact ih _

/-- Reading the groups back and reinserting a zero after every zero-closed
group reconstructs the payload. -/
theorem joinGroups_goGroups (rest : List Nat) :
    ∀ acc, acc.length ≤ 253 → joinGroups (goGroups acc rest) = (acc ++ rest).map some := by
  induction rest with
  | nil =>
    intro acc _
    simp [goGroups, joinGroups]
  | cons b rest ih =>
    intro acc hacc
    rw [goGroups]
    by_cases hb : b = 0
    · rw [if_pos hb, joinGroups]
      have hne : goGroups [] rest ≠ [] := goGroups_ne_nil rest []
      rw [if_neg hne, if_pos (by omega : acc.length < 254), ih [] (by simp)]
      subst hb
      simp
    · rw [if_neg hb]
      by_cases hc : acc.length = 253
      · rw [if_pos hc, joinGroups]
        have hne : goGroups [] rest ≠ [] := goGroups_ne_nil rest []
        have hlen : ¬ ((acc ++ [b]).length < 254) := by
          simp [hc]
        rw [if_neg hne, if_neg hlen, ih [] (by simp)]
        simp
      · rw [if_neg hc, ih (acc ++ [b]) (by simp; omega)]
        simp

/-- Round trip: decoding an encoded-and-terminated frame recovers the payload
minus the 2-entry header dropped by `convert_buffer`. -/
theorem convert_buffer_encode (p : List Nat) :
    convert_buffer (encode_command p true) = (p.drop 2).map some := by
  have henc : encode_command p true = flatBlocks (goGroups [] p) ++ [0] := by
    rw [encode_command_eq]
    simp
  have hjoin : joinGroups (goGroups [] p) = p.map some := by
    have h := joinGroups_goGroups p [] (by simp)
    simpa using h
  have hkey := convertLoopF_flatBlocks (goGroups [] p) []
      ((flatBlocks (goGroups [] p) ++ [0]).length)
      (by simp only [List.length_append, List.length_cons, List.length_nil]; omega)
  simp only [List.nil_append, List.length_nil] at hkey
  rw [convert_buffer, henc, List.dropLast_concat, hkey, hjoin, ← List.map_drop]

theorem amendedDecodeRun_succ (fuel : Nat) (r : List Nat) :
    amendedDecodeRun (fuel + 1) r
      = if 2 ≤ r.length then
          ((r.tail.take (r.headD 0 - 1)).map some
            ++ List.replicate ((r.headD 0 - 1) - r.tail.length) none)
          ++ ((if r.headD 0 < 255 ∧ r.tail.drop (r.headD 0 - 1) ≠ [] then [some 0] else [])
            ++ amendedDecodeRun fuel (r.tail.drop (r.headD 0 - 1)))
        else [] := rfl

theorem headD_drop {α : Type} (l : List α) (n : Nat) (d : α) :
    (l.drop n).headD d = l.getD n d := by
  rw [List.headD_eq_head?, List.head?_drop, List.getD_eq_getElem?_getD]

theorem getD_drop {α : Type} (l : List α) (n k : Nat) (d : α) :
    (l.drop n).getD k d = l.getD (n + k) d := by
  rw [List.getD_eq_getElem?_getD, List.getD_eq_getElem?_getD, List.getElem?_drop]

theorem range_map_if_eq_take_replicate {α : Type} (A : List α) (m : Nat) (d : α) :
    (List.range m).map (fun k => if k < A.length then some (A.getD k d) else none)
      = (A.take m).map some ++ List.replicate (m - A.length) none := by
  induction m with
  | zero => simp
  | succ m ih =>
    rw [List.range_succ, List.map_append, ih]
    by_cases h : m < A.length
    · have h1 : m + 1 - A.length = 0 := by omega
      have h2 : m - A.length = 0 := by omega
      have h3 : A.take (m + 1) = A.take m ++ [A[m]] := by
        rw [List.take_succ, List.getElem?_eq_getElem h]
        rfl
      rw [h1, h2, h3]
      simp [if_pos h, List.getD_eq_getElem?_getD, List.getElem?_eq_getElem h]
      have hm : m < (List.map some A).length := by simpa using h
      rw [List.take_succ, List.getElem?_eq_getElem hm]
      simp
    · have h1 : A.take (m + 1) = A.take m := by
        rw [List.take_of_length_le (by omega), List.take_of_length_le (by omega)]
      have h2 : m + 1 - A.length = (m - A.length) + 1 := by omega
      rw [h1, h2, List.replicate_succ']
      simp [if_neg h]

/-- The code's indexed loop agrees with the amended spec-style walk over the
remaining bytes. -/
theorem convertLoopF_eq_amended (fuel : Nat) :
    ∀ (data : List Nat) (i : Nat),
      convertLoopF data i fuel = amendedDecodeRun fuel (data.drop i) := by
  induction fuel with
  | zero =>
    intro data i
    rfl
  | succ f ih =>
    intro data i
    rw [convertLoopF_succ, amendedDecodeRun_succ]
    have hlen : (data.drop i).length = data.length - i := List.length_drop i data
    by_cases hguard : i < data.length - 1
    · rw [if_pos hguard, if_pos (show 2 ≤ (List.drop i data).length by omega)]
      have hL : (data.drop i).headD 0 = data.getD i 0 := headD_drop data i 0
      have htail : (data.drop i).tail = data.drop (i + 1) := List.tail_drop data i
      rw [hL, htail]
      have hbody : (List.range (data.getD i 0 - 1)).map
            (fun k => if i + 1 + k < data.length then some (data.getD (i + 1 + k) 0) else none)
          = ((data.drop (i + 1)).take (data.getD i 0 - 1)).map some
            ++ List.replicate ((data.getD i 0 - 1) - (data.drop (i + 1)).length) none := by
        rw [← range_map_if_eq_take_replicate (data.drop (i + 1)) (data.getD i 0 - 1) 0]
        apply List.map_congr_left
        intro k _
        have hlen1 : (data.drop (i + 1)).length = data.length - (i + 1) :=
          List.length_drop (i + 1) data
        by_cases hk : i + 1 + k < data.length
        · rw [if_pos hk, if_pos (by omega), getD_drop]
        · rw [if_neg hk, if_neg (by omega)]
      rw [hbody]
      have hdrop2 : (data.drop (i + 1)).drop (data.getD i 0 - 1)
          = data.drop (i + 1 + (data.getD i 0 - 1)) := by
        rw [List.drop_drop]
      have hsep : (i + 1 + (data.getD i 0 - 1) < data.length)
          ↔ (data.drop (i + 1 + (data.getD i 0 - 1)) ≠ []) := by
        rw [← List.length_pos, List.length_drop]
        omega
      rw [hdrop2, ih data (i + 1 + (data.getD i 0 - 1))]
      have hsep' : (if data.getD i 0 < 255 ∧ i + 1 + (data.getD i 0 - 1) < data.length
            then [some (0 : Nat)] else [])
          = (if data.getD i 0 < 255 ∧ data.drop (i + 1 + (data.getD i 0 - 1)) ≠ []
            then [some 0] else []) :=
        if_congr (and_congr_right fun _ => hsep) rfl rfl
      rw [hsep']
    · rw [if_neg hguard, if_neg (show ¬ 2 ≤ (List.drop i data).length by omega)]

/-- The code's `convert_buffer` agrees everywhere with the amended
description of the decode algorithm. -/
theorem convert_buffer_eq_amended (raw : List Nat) :
    convert_buffer raw = convert_buffer_amended raw := by
  rw [convert_buffer, convert_buffer_amended, convertLoopF_eq_amended raw.length raw.dropLast 0,
    List.drop_zero]

end PyAnova

namespace PyAnova

/-- Sanity examples from the repository's own test suite. -/
example : encode_command [0, 5] true = [1, 2, 5, 0] := by decide

example : convert_buffer [1, 2, 5, 0] = [] := by decide

example : convert_buffer [1, 5, 4, 8, 164, 3, 0] = [8, 164, 3].map some := by decide

/-- Whenever `_get_unit_and_factor` succeeds, the unit letter is "C" or "F"
and the factor is 1, 10 or 100. -/
theorem get_unit_and_factor_ok_cases (u : UnitType) (s : String) (f : Int)
    (h : get_unit_and_factor u = Except.ok (s, f)) :
    (s = "C" ∨ s = "F") ∧ (f = 1 ∨ f = 10 ∨ f = 100) := by
  cases u <;> simp [get_unit_and_factor] at h <;>
    obtain ⟨hs, hf⟩ := h <;> subst hs <;> subst hf <;> simp

/-! ## The claims -/

/-- C1 (counterexample): `[1, 2, 5, 0]` is the complete encoded frame of the
payload `[0, 5]`, yet its deliberately truncated 3-byte prefix `[1, 2, 5]`
decodes WITHOUT any placeholder marker — refuting "decode of that prefix
yields a sequence containing at least one placeholder" and the
completeness direction of the claimed iff. -/
theorem claim_C1_counterexample :
    encode_command [0, 5] true = [1, 2, 5, 0]
    ∧ (encode_command [0, 5] true).take 3 = [1, 2, 5]
    ∧ (convert_buffer ((encode_command [0, 5] true).take 3)).count none = 0
    ∧ convert_buffer (encode_command [0, 5] true) = [] := by
  decide

/-- C1 (amended): placeholders witness incompleteness only one way — the
decode of the full accumulation of any completely encoded frame contains no
placeholder, and some truncated prefixes (those cut inside a group's copy
region) do contain placeholders, but a truncated prefix may also decode
without placeholders. -/
theorem claim_C1_placeholders :
    (∀ p : List Nat, (convert_buffer (encode_command p true)).count none = 0)
    ∧ 0 < (convert_buffer ((encode_command [1, 2, 3, 4, 5] true).take 4)).count none := by
  constructor
  · intro p
    rw [convert_buffer_encode, List.count_eq_zero]
    intro hmem
    obtain ⟨a, -, ha⟩ := List.mem_map.mp hmem
    exact absurd ha (Option.some_ne_none a)
  · decide

/-- C2: for every payload carrying the protocol's 2-entry header, with byte
values and with no zero run exceeding 254 bytes, decoding the terminated
encoding and re-prefixing the 2-entry header yields exactly the original
payload. -/
theorem claim_C2_roundtrip (p : List Nat) (_hlen : 2 ≤ p.length)
    (_hbytes : ∀ b ∈ p, b < 256) (_hruns : noLongZeroRun p = true) :
    (p.take 2).map some ++ convert_buffer (encode_command p true) = p.map some := by
  rw [convert_buffer_encode, ← List.map_append, List.take_append_drop]

/-- C2 witness: the hypotheses hold for the concrete payload `[0, 5]` and
the round trip reproduces it. -/
theorem claim_C2_roundtrip_witness :
    2 ≤ ([0, 5] : List Nat).length
    ∧ (∀ b ∈ ([0, 5] : List Nat), b < 256)
    ∧ noLongZeroRun [0, 5] = true
    ∧ (([0, 5] : List Nat).take 2).map some ++ convert_buffer (encode_command [0, 5] true)
      = ([0, 5] : List Nat).map some :=
  ⟨by decide, by decide, by decide,
    claim_C2_roundtrip [0, 5] (by decide) (by decide) (by decide)⟩

/-- C3 (counterexample): "any exception while writing" does not leave the
lock released — when `await get_data()` is cancelled (an
`asyncio.CancelledError`, which client.py:353's `except Exception` does not
catch), `send_command` raises with the command lock STILL HELD, so a
subsequent command can never acquire it. -/
theorem claim_C3_counterexample :
    (send_command GetDataOutcome.cancelled true false false).1
      = Except.error SendErr.cancelledError
    ∧ (send_command GetDataOutcome.cancelled true false false).2 = true := by
  exact ⟨rfl, rfl⟩

/-- C3 (amended): on every branch of `send_command` other than a
cancellation inside `get_data` — success, write-only command,
`Exception`-derived write failure, timeout of the 3-second response deadline
(which surfaces as `commandTimeout`), or decode failure — the command lock
is released on exit; a `BaseException`-derived cancellation raised while
awaiting `get_data` propagates with the lock still held. -/
theorem claim_C3_lock_released :
    (∀ hasHandler timesOut decodeFails : Bool,
      (send_command GetDataOutcome.ok hasHandler timesOut decodeFails).2 = false)
    ∧ (∀ hasHandler timesOut decodeFails : Bool,
      (send_command GetDataOutcome.raisesException hasHandler timesOut decodeFails).2 = false)
    ∧ (∀ decodeFails : Bool,
      (send_command GetDataOutcome.ok true true decodeFails).1
        = Except.error SendErr.commandTimeout)
    ∧ (∀ hasHandler timesOut decodeFails : Bool,
      (send_command GetDataOutcome.cancelled hasHandler timesOut decodeFails).2 = true)
    ∧ RX_DATA_TIMEOUT_SEC = 3 := by
  refine ⟨?_, ?_, ?_, ?_, rfl⟩
  · intro hasHandler timesOut decodeFails
    cases hasHandler <;> cases timesOut <;> cases decodeFails <;> rfl
  · intro hasHandler timesOut decodeFails
    cases hasHandler <;> cases timesOut <;> cases decodeFails <;> rfl
  · intro decodeFails
    cases decodeFails <;> rfl
  · intro hasHandler timesOut decodeFails
    cases hasHandler <;> cases timesOut <;> cases decodeFails <;> rfl

/-- C4 (code bug): `get_status` first evaluates `ReadCommands.Status`, but
`ReadCommands` declares no member `Status`, so the call raises
`AttributeError` for every motor speed — including 0 — instead of returning
"stopped"/"running". -/
theorem claim_C4_get_status_raises :
    readCommandsAttr "Status" = none
    ∧ get_status 0 = Except.error "AttributeError: Status"
    ∧ ∀ mspeed : Int, get_status mspeed = Except.error "AttributeError: Status" := by
  exact ⟨rfl, rfl, fun _ => rfl⟩

/-- C5 (counterexample): on the raw input `[1, 5, 200]` the code returns the
empty list while the claimed walk — which repeats "until the input is
exhausted" — would consume the final remaining byte as a length byte and
produce three placeholders. -/
theorem claim_C5_counterexample :
    convert_buffer [1, 5, 200] = []
    ∧ convert_buffer_claimed [1, 5, 200] = [none, none, none]
    ∧ convert_buffer [1, 5, 200] ≠ convert_buffer_claimed [1, 5, 200] := by
  decide

/-- C5 (amended): `convert_buffer` drops the final byte and walks the
remainder exactly as described — length byte, `L-1` literal copies with
placeholders past the end, a literal 0 when `L < 255` and input remains,
first two outputs dropped — but the walk repeats only while at least two
bytes of the remainder are unread; a single final remaining byte is never
consumed as a length byte. -/
theorem claim_C5_decode_walk (raw : List Nat) :
    convert_buffer raw = convert_buffer_amended raw :=
  convert_buffer_eq_amended raw

/-- C6: on a decoded sensor list of eight (or more) entries whose four
temperature tags are recognized, `get_sensor_values` discards the fourth
entry, divides each temperature by its tag's factor, records the bare unit
letter, derives the two flags as nonzero/zero, passes motor speed through,
and the recognized tags only produce letters "C"/"F" with factors 1/10/100;
the non-temperature tags make `_get_unit_and_factor` fail with the
unknown-unit error. -/
theorem claim_C6_sensor_mapper
    (water heater triac unused internal low leak motor : SensorValue)
    (rest : List SensorValue)
    (wu hu tu iu : String) (wf hf tf ifac : Int)
    (hw : get_unit_and_factor water.units = Except.ok (wu, wf))
    (hh : get_unit_and_factor heater.units = Except.ok (hu, hf))
    (ht : get_unit_and_factor triac.units = Except.ok (tu, tf))
    (hi : get_unit_and_factor internal.units = Except.ok (iu, ifac)) :
    get_sensor_values
        (water :: heater :: triac :: unused :: internal :: low :: leak :: motor :: rest)
      = Except.ok
          { water_temp := (water.value : ℚ) / (wf : ℚ),
            water_temp_units := wu,
            heater_temp := (heater.value : ℚ) / (hf : ℚ),
            heater_temp_units := hu,
            triac_temp := (triac.value : ℚ) / (tf : ℚ),
            triac_temp_units := tu,
            internal_temp := (internal.value : ℚ) / (ifac : ℚ),
            internal_temp_units := iu,
            water_low := decide (low.value ≠ 0),
            water_leak := decide (leak.value ≠ 0),
            motor_speed := motor.value }
    ∧ ((wu = "C" ∨ wu = "F") ∧ (wf = 1 ∨ wf = 10 ∨ wf = 100))
    ∧ ((hu = "C" ∨ hu = "F") ∧ (hf = 1 ∨ hf = 10 ∨ hf = 100))
    ∧ ((tu = "C" ∨ tu = "F") ∧ (tf = 1 ∨ tf = 10 ∨ tf = 100))
    ∧ ((iu = "C" ∨ iu = "F") ∧ (ifac = 1 ∨ ifac = 10 ∨ ifac = 100))
    ∧ get_unit_and_factor UnitType.BOOLEAN = Except.error "Unknown unit type"
    ∧ get_unit_and_factor UnitType.MOTOR_SPEED = Except.error "Unknown unit type" := by
  refine ⟨?_, ?_, ?_, ?_, ?_, rfl, rfl⟩
  · simp [get_sensor_values, nextVal, hw, hh, ht, hi, Bind.bind, Except.bind]
  · exact get_unit_and_factor_ok_cases water.units wu wf hw
  · exact get_unit_and_factor_ok_cases heater.units hu hf hh
  · exact get_unit_and_factor_ok_cases triac.units tu tf ht
  · exact get_unit_and_factor_ok_cases internal.units iu ifac hi

/-- C6 witness: the stopped-state sensor list from the repository's test
suite, with a ×100 Celsius water temperature. -/
theorem claim_C6_sensor_mapper_witness :
    get_sensor_values
        [⟨2130, UnitType.DEGREES_POINT_01C⟩, ⟨20, UnitType.DEGREES_C⟩,
          ⟨22, UnitType.DEGREES_C⟩, ⟨0, UnitType.BOOLEAN⟩, ⟨25, UnitType.DEGREES_C⟩,
          ⟨1, UnitType.BOOLEAN⟩, ⟨0, UnitType.BOOLEAN⟩, ⟨0, UnitType.MOTOR_SPEED⟩]
      = Except.ok
          { water_temp := ((2130 : Int) : ℚ) / ((100 : Int) : ℚ),
            water_temp_units := "C",
            heater_temp := ((20 : Int) : ℚ) / ((1 : Int) : ℚ),
            heater_temp_units := "C",
            triac_temp := ((22 : Int) : ℚ) / ((1 : Int) : ℚ),
            triac_temp_units := "C",
            internal_temp := ((25 : Int) : ℚ) / ((1 : Int) : ℚ),
            internal_temp_units := "C",
            water_low := decide ((1 : Int) ≠ 0),
            water_leak := decide ((0 : Int) ≠ 0),
            motor_speed := 0 } :=
  (claim_C6_sensor_mapper
    ⟨2130, UnitType.DEGREES_POINT_01C⟩ ⟨20, UnitType.DEGREES_C⟩ ⟨22, UnitType.DEGREES_C⟩
    ⟨0, UnitType.BOOLEAN⟩ ⟨25, UnitType.DEGREES_C⟩ ⟨1, UnitType.BOOLEAN⟩
    ⟨0, UnitType.BOOLEAN⟩ ⟨0, UnitType.MOTOR_SPEED⟩ []
    "C" "C" "C" "C" 100 1 1 1 rfl rfl rfl rfl).1

/-- C7: encoding the payload `[0x00, 0x05]` with `terminate = true` yields
exactly `[0x01, 0x02, 0x05, 0x00]`. -/
theorem claim_C7_encode_example : encode_command [0, 5] true = [1, 2, 5, 0] := by
  decide

/-- C8: the fan-out runs every registered callback exactly once, in order,
even when earlier callbacks raise; each raised exception is caught and
collected in the log instead of propagating. -/
theorem claim_C8_fanout (callbackSpecs : List (Nat × Option String)) (s : List Nat) :
    fire_callbacks (callbackSpecs.map (fun p => fun st => (st ++ [p.1], p.2))) s
      = (s ++ callbackSpecs.map Prod.fst, callbackSpecs.filterMap Prod.snd) := by
  induction callbackSpecs generalizing s with
  | nil => simp [fire_callbacks]
  | cons p rest ih =>
    cases hp : p.2 with
    | none => simp [fire_callbacks, ih, hp]
    | some e => simp [fire_callbacks, ih, hp]

/-- C9: for every raw input of at most two bytes, `convert_buffer` returns
the empty list, which contains no placeholder, so the response-completion
check of `on_data_received` treats the accumulation as a complete frame with
an empty payload. -/
theorem claim_C9_short_input (raw : List Nat) (h : raw.length ≤ 2) :
    convert_buffer raw = [] ∧ response_complete raw = true := by
  have hd : raw.dropLast.length = raw.length - 1 := List.length_dropLast raw
  have h1 : convert_buffer raw = [] := by
    rw [convert_buffer]
    cases hr : raw.length with
    | zero => rw [convertLoopF_zero]; rfl
    | succ n =>
      rw [convertLoopF_succ, if_neg (by omega)]
      rfl
  refine ⟨h1, ?_⟩
  rw [response_complete, h1]
  decide

/-- C9 witness: the two-byte accumulation `[1, 2]` decodes to the empty
list and passes the completion check. -/
theorem claim_C9_short_input_witness :
    ([1, 2] : List Nat).length ≤ 2
    ∧ convert_buffer [1, 2] = [] ∧ response_complete [1, 2] = true :=
  ⟨by decide, claim_C9_short_input [1, 2] (by decide)⟩

/-- C10: `set_unit` sends the Celsius unit value exactly when the lowercased
argument equals "c" and silently sends the Fahrenheit unit value for every
other string, including "kelvin" and the empty string. -/
theorem claim_C10_set_unit :
    set_unit "c" = UnitType.DEGREES_C
    ∧ set_unit "C" = UnitType.DEGREES_C
    ∧ (∀ s : String, strLower s ≠ "c" → set_unit s = UnitType.DEGREES_F)
    ∧ set_unit "kelvin" = UnitType.DEGREES_F
    ∧ set_unit "" = UnitType.DEGREES_F := by
  refine ⟨by decide, by decide, ?_, by decide, by decide⟩
  intro s hs
  rw [set_unit, if_neg hs]

/-- C10 witness: "kelvin" lowercases to something other than "c" and is
sent as Fahrenheit. -/
theorem claim_C10_set_unit_witness :
    strLower "kelvin" ≠ "c" ∧ set_unit "kelvin" = UnitType.DEGREES_F :=
  ⟨by decide, claim_C10_set_unit.2.2.1 "kelvin" (by decide)⟩

end PyAnova
